import Mathlib

/-
Verification of the popol readiness-multiplexing core (src/lib.rs) against its
specification.  The Rust code is shallowly embedded: event masks are naturals
(bit patterns of libc's c_short poll flags on Linux), raw file descriptors are
integers, the HashMap of waker positions is an association list, and the two
external effects (the poll(2) syscall and the one-byte drain read on a waker's
internal reader) are passed in as explicit outcomes.
-/

set_option autoImplicit false

namespace Popol

/-! Event flag constants, from `mod events` (libc numeric values on Linux). -/

namespace events

def POLLIN : Nat := 1

def POLLPRI : Nat := 2

def POLLOUT : Nat := 4

def POLLERR : Nat := 8

def POLLHUP : Nat := 16

def POLLNVAL : Nat := 32

/-- Composite mask READ = POLLIN | POLLHUP | POLLERR | POLLPRI. -/
def READ : Nat := POLLIN ||| POLLHUP ||| POLLERR ||| POLLPRI

/-- Composite mask WRITE = POLLOUT | POLLERR. -/
def WRITE : Nat := POLLOUT ||| POLLERR

end events

/-- Record passed to poll(2): `struct Descriptor { fd, events, revents }`. -/
structure Descriptor where
  fd : Int
  events : Nat
  revents : Nat
  deriving DecidableEq, Repr

/-- Descriptor::new — fresh record with a zero result mask. -/
def Descriptor.new (fd : Int) (events : Nat) : Descriptor :=
  { fd := fd, events := events, revents := 0 }

/-- Descriptor::set — replace the interest mask. -/
def Descriptor.set (d : Descriptor) (events : Nat) : Descriptor :=
  { d with events := events }

/-- Descriptor::unset — clear the given interest bits (16-bit complement). -/
def Descriptor.unset (d : Descriptor) (events : Nat) : Descriptor :=
  { d with events := d.events &&& (65535 ^^^ events) }

/-! List helpers mirroring the Vec / Iterator operations the source uses. -/

/-- Iterator::position — index of the first element satisfying the test. -/
def firstIdx {α : Type} (p : α → Bool) : List α → Option Nat
  | [] => none
  | a :: l => if p a then some 0 else (firstIdx p l).map (· + 1)

/-- Vec::swap_remove — overwrite slot ix with the final element, then pop. -/
def swapRemove {α : Type} (l : List α) (ix : Nat) : List α :=
  match l.getLast? with
  | none => l
  | some a => (l.set ix a).dropLast

/-- In-place update of the element at one position (Rust `v[ix] = f(v[ix])`). -/
def modifyAt {α : Type} (f : α → α) : Nat → List α → List α
  | _, [] => []
  | 0, a :: l => f a :: l
  | n + 1, a :: l => a :: modifyAt f n l

/-- HashMap::insert on the waker side-table (overwrites an existing key). -/
def hmInsert (m : List (Nat × Nat)) (k v : Nat) : List (Nat × Nat) :=
  (k, v) :: m.filter (fun p => p.1 != k)

/-- HashMap lookup on the waker side-table. -/
def hmLookup : List (Nat × Nat) → Nat → Option Nat
  | [], _ => none
  | p :: m, k => if p.1 = k then some p.2 else hmLookup m k

/-- The registry: `struct Descriptors<K> { wakers, index, list }`.  The waker
side-table maps a registry position to the raw fd of the internal reader whose
UnixStream it stores. -/
structure Descriptors (K : Type) where
  wakers : List (Nat × Nat)
  index : List K
  list : List Descriptor
  deriving DecidableEq, Repr

/-- Descriptors::new. -/
def Descriptors.new (K : Type) : Descriptors K :=
  { wakers := [], index := [], list := [] }

/-- Descriptors::insert — push the key and the record. -/
def Descriptors.insert {K : Type} (s : Descriptors K) (key : K) (d : Descriptor) :
    Descriptors K :=
  { s with index := s.index ++ [key], list := s.list ++ [d] }

/-- Descriptors::register. -/
def Descriptors.register {K : Type} (s : Descriptors K) (key : K) (fd : Int)
    (events : Nat) : Descriptors K :=
  s.insert key (Descriptor.new fd events)

/-- Descriptors::unregister — swap-remove the first occurrence of the key from
both sequences (the waker side-table is not touched by the source). -/
def Descriptors.unregister {K : Type} [DecidableEq K] (s : Descriptors K) (key : K) :
    Descriptors K :=
  match firstIdx (fun k => decide (k = key)) s.index with
  | some ix => { s with index := swapRemove s.index ix, list := swapRemove s.list ix }
  | none => s

/-- Descriptors::set — update the interest mask of the first match in place,
reporting whether a match was found. -/
def Descriptors.set {K : Type} [DecidableEq K] (s : Descriptors K) (key : K)
    (events : Nat) : Bool × Descriptors K :=
  match firstIdx (fun k => decide (k = key)) s.index with
  | some ix => (true, { s with list := modifyAt (fun d => { d with events := events }) ix s.list })
  | none => (false, s)

/-! A registry-mutating operation, for stating invariants over op sequences. -/

inductive Op (K : Type) where
  | reg (key : K) (fd : Int) (events : Nat)
  | unreg (key : K)
  | seti (key : K) (events : Nat)

def applyOp {K : Type} [DecidableEq K] (s : Descriptors K) : Op K → Descriptors K
  | .reg key fd ev => s.register key fd ev
  | .unreg key => s.unregister key
  | .seti key ev => (s.set key ev).2

def applyOps {K : Type} [DecidableEq K] (s : Descriptors K) (ops : List (Op K)) :
    Descriptors K :=
  ops.foldl applyOp s

/-- Spec-level paired registry: keys and records kept as one list of pairs,
evolving under the same operations.  Agreement with `applyOps` is exactly the
positional-alignment invariant of the spec. -/
def pApplyOp {K : Type} [DecidableEq K] (ps : List (K × Descriptor)) :
    Op K → List (K × Descriptor)
  | .reg key fd ev => ps ++ [(key, Descriptor.new fd ev)]
  | .unreg key =>
    match firstIdx (fun p => decide (p.1 = key)) ps with
    | some ix => swapRemove ps ix
    | none => ps
  | .seti key ev =>
    match firstIdx (fun p => decide (p.1 = key)) ps with
    | some ix => modifyAt (fun p => (p.1, { p.2 with events := ev })) ix ps
    | none => ps

def pApplyOps {K : Type} [DecidableEq K] (ps : List (K × Descriptor))
    (ops : List (Op K)) : List (K × Descriptor) :=
  ops.foldl pApplyOp ps

/-! Timeout conversion: `timeout.as_millis() as libc::c_int`. -/

/-- Duration::as_millis of a duration given as a nanosecond count. -/
def asMillis (ns : Nat) : Nat := ns / 1000000

/-- Rust numeric cast `u128 as i32`: keep the low 32 bits, two's complement. -/
def castToCInt (n : Nat) : Int :=
  if n % 4294967296 < 2147483648 then (n % 4294967296 : Nat)
  else (n % 4294967296 : Nat) - 4294967296

/-- The timeout argument wait hands to poll(2). -/
def waitTimeoutArg (ns : Nat) : Int := castToCInt (asMillis ns)

/-! The wait operation.  poll(2) and the waker drain reads are external: the
syscall outcome (return code, the revents values it wrote, the thread's last OS
error) is a parameter, as is the outcome of a one-byte read on each internal
reader fd. -/

/-- Borrowed event view yielded during iteration (struct Event). -/
structure EventView where
  writable : Bool
  readable : Bool
  errored : Bool
  descriptor : Descriptor
  deriving DecidableEq, Repr

/-- Event construction inside wait's map closure. -/
def mkEvent (d : Descriptor) : EventView :=
  { readable := (d.revents &&& events.READ) != 0,
    writable := (d.revents &&& events.WRITE) != 0,
    errored := (d.revents &&& (events.POLLERR ||| events.POLLNVAL)) != 0,
    descriptor := d }

/-- Outcome of the poll(2) call: the return code, the result masks written into
the records (positionally), and the last OS error code. -/
structure SysOutcome where
  ret : Int
  revs : List Nat
  errno : Nat
  deriving DecidableEq, Repr

/-- Result masks written by the kernel into the record array. -/
def writeRevents (l : List Descriptor) (revs : List Nat) : List Descriptor :=
  List.zipWith (fun d r => { d with revents := r }) l revs

/-- Overall outcome of one wait call.  `timeout` and `ready` are the Ok poll
variants, `fail` is the Err branch, and `aborted` is a panic raised while the
ready iterator is consumed (a failed assert or a failed drain read unwrap). -/
inductive WaitOutcome (K : Type) where
  | timeout
  | ready (evs : List (K × EventView))
  | aborted
  | fail (errno : Nat)
  deriving DecidableEq, Repr

/-- Waker::snooze on the outcome of the one-byte read: Err propagates (and is
then unwrapped, i.e. a panic), a byte count other than one fails the assert. -/
def snooze (readOutcome : Except Nat Nat) : Option Unit :=
  match readOutcome with
  | .ok 1 => some ()
  | _ => none

/-- Enumerate with positions (Iterator::enumerate). -/
def enumFrom {α : Type} : Nat → List α → List (Nat × α)
  | _, [] => []
  | n, a :: l => (n, a) :: enumFrom (n + 1) l

/-- The entries wait's filter keeps: position, key and record of every record
whose result mask is non-zero, in registry order. -/
def readyEntries {K : Type} (index : List K) (list : List Descriptor) :
    List (Nat × K × Descriptor) :=
  (enumFrom 0 (index.zip list)).filter (fun e => e.2.2.revents != 0)

/-- The body of wait's map closure for one kept entry.  For a waker slot the
two asserts run, then snooze's read outcome is unwrapped; `none` is a panic
aborting the iteration.  `drain` gives the read outcome on each reader fd. -/
def processEntry {K : Type} (wakers : List (Nat × Nat))
    (drain : Nat → Except Nat Nat) (e : Nat × K × Descriptor) :
    Option (K × EventView) :=
  match hmLookup wakers e.1 with
  | some reader =>
    if e.2.2.revents &&& events.READ ≠ 0 ∧ e.2.2.revents &&& events.POLLOUT = 0 then
      match snooze (drain reader) with
      | some _ => some (e.2.1, mkEvent e.2.2)
      | none => none
    else none
  | none => some (e.2.1, mkEvent e.2.2)

/-- Run an option-valued step over a list, stopping at the first `none`. -/
def optTraverse {α β : Type} (f : α → Option β) : List α → Option (List β)
  | [] => some []
  | a :: l =>
    match f a with
    | some b =>
      match optTraverse f l with
      | some bs => some (b :: bs)
      | none => none
    | none => none

/-- Return-code interpretation and event production of wait, given the syscall
outcome.  The lazy Ready iterator is modelled fully consumed. -/
def waitWith {K : Type} (fds : Descriptors K) (sys : SysOutcome)
    (drain : Nat → Except Nat Nat) : WaitOutcome K :=
  if sys.ret = 0 then .timeout
  else if 0 < sys.ret then
    match optTraverse (processEntry fds.wakers drain)
        (readyEntries fds.index (writeRevents fds.list sys.revs)) with
    | some evs => .ready evs
    | none => .aborted
  else .fail sys.errno

/-- The wait entry point: converts the timeout, invokes poll(2) with it (the
syscall is the function `poll`, from the timeout argument to its outcome), and
interprets the result. -/
def wait {K : Type} (fds : Descriptors K) (timeoutNs : Nat)
    (poll : Int → SysOutcome) (drain : Nat → Except Nat Nat) : WaitOutcome K :=
  waitWith fds (poll (waitTimeoutArg timeoutNs)) drain

/-- Spec wording of the ready sequence: exactly the (key, event) pairs of
records whose result mask is non-zero, in registry positional order. -/
def specReadyPairs {K : Type} (index : List K) (list : List Descriptor) :
    List (K × EventView) :=
  ((index.zip list).filter (fun kd => kd.2.revents != 0)).map
    (fun kd => (kd.1, mkEvent kd.2))

/-- Waker::new.  The three fallible steps (UnixStream::pair and the two
set_nonblocking calls) are passed in as outcomes; the pair is (writer, reader),
each named by its raw fd.  The registry is returned alongside the result, since
the source mutates it in place only after all fallible steps. -/
def wakerNew {K : Type} (s : Descriptors K) (key : K)
    (pairRes : Except Nat (Nat × Nat)) (readerNB writerNB : Except Nat Unit) :
    Descriptors K × Except Nat Nat :=
  match pairRes with
  | .error e => (s, .error e)
  | .ok (writer, reader) =>
    match readerNB with
    | .error e => (s, .error e)
    | .ok _ =>
      match writerNB with
      | .error e => (s, .error e)
      | .ok _ =>
        let s1 : Descriptors K := { s with wakers := hmInsert s.wakers s.list.length reader }
        (s1.insert key (Descriptor.new (Int.ofNat reader) events.READ), .ok writer)

/-! Helper lemmas about the list operations. -/

theorem firstIdx_map {α β : Type} (f : α → β) (p : β → Bool) :
    ∀ l : List α, firstIdx p (l.map f) = firstIdx (fun a => p (f a)) l
  | [] => rfl
  | a :: l => by
    by_cases h : p (f a) <;> simp [firstIdx, h, firstIdx_map f p l]

theorem getLast?_map {α β : Type} (f : α → β) :
    ∀ l : List α, (l.map f).getLast? = (l.getLast?).map f
  | [] => rfl
  | [a] => rfl
  | a :: b :: l => by
    show (f a :: f b :: List.map f l).getLast? = ((a :: b :: l).getLast?).map f
    rw [List.getLast?_cons_cons, List.getLast?_cons_cons]
    exact getLast?_map f (b :: l)

theorem modifyAt_nil {α : Type} (f : α → α) (n : Nat) : modifyAt f n [] = [] := by
  cases n <;> rfl

theorem map_set {α β : Type} (f : α → β) :
    ∀ (l : List α) (n : Nat) (a : α), (l.set n a).map f = (l.map f).set n (f a)
  | [], _, _ => rfl
  | b :: l, 0, a => rfl
  | b :: l, n + 1, a => by
    simp [List.set, map_set f l n a]

theorem map_dropLast {α β : Type} (f : α → β) :
    ∀ l : List α, l.dropLast.map f = (l.map f).dropLast
  | [] => rfl
  | [a] => rfl
  | a :: b :: l => by
    simp only [List.dropLast, List.map]
    exact congrArg (f a :: ·) (map_dropLast f (b :: l))

theorem swapRemove_map {α β : Type} (f : α → β) (l : List α) (ix : Nat) :
    swapRemove (l.map f) ix = (swapRemove l ix).map f := by
  unfold swapRemove
  rw [getLast?_map]
  cases h : l.getLast? with
  | none => simp
  | some a => simp [map_set, map_dropLast]

theorem map_modifyAt_eq {α β : Type} (g : α → β) (f : α → α)
    (h : ∀ a, g (f a) = g a) : ∀ (n : Nat) (l : List α),
    (modifyAt f n l).map g = l.map g
  | n, [] => by rw [modifyAt_nil]
  | 0, a :: l => by simp [modifyAt, h a]
  | n + 1, a :: l => by simp [modifyAt, map_modifyAt_eq g f h n l]

theorem map_modifyAt_comm {α β : Type} (g : α → β) (f : α → α) (f' : β → β)
    (h : ∀ a, g (f a) = f' (g a)) : ∀ (n : Nat) (l : List α),
    (modifyAt f n l).map g = modifyAt f' n (l.map g)
  | n, [] => by simp [modifyAt_nil]
  | 0, a :: l => by simp [modifyAt, h a]
  | n + 1, a :: l => by simp [modifyAt, map_modifyAt_comm g f f' h n l]

theorem modifyAt_getElem? {α : Type} (f : α → α) :
    ∀ (n : Nat) (l : List α) (j : Nat),
    (modifyAt f n l)[j]? = if j = n then (l[j]?).map f else l[j]?
  | n, [], j => by cases j <;> simp [modifyAt_nil]
  | 0, a :: l, 0 => by simp [modifyAt]
  | 0, a :: l, j + 1 => by simp [modifyAt]
  | n + 1, a :: l, 0 => by simp [modifyAt]
  | n + 1, a :: l, j + 1 => by
    simp only [modifyAt, List.getElem?_cons_succ, modifyAt_getElem? f n l j,
      Nat.succ_eq_add_one]
    by_cases h : j = n <;> simp [h]

theorem modifyAt_append_len {α : Type} (f : α → α) :
    ∀ (l : List α) (a : α), modifyAt f l.length (l ++ [a]) = l ++ [f a]
  | [], a => rfl
  | b :: l, a => by simp [modifyAt, modifyAt_append_len f l a]

theorem firstIdx_append_absent {α : Type} (p : α → Bool) :
    ∀ l : List α, (∀ a ∈ l, p a = false) → ∀ b, p b = true →
    firstIdx p (l ++ [b]) = some l.length
  | [], _, b, hb => by simp [firstIdx, hb]
  | a :: l, h, b, hb => by
    have ha := h a (by simp)
    simp [firstIdx, ha,
      firstIdx_append_absent p l (fun x hx => h x (by simp [hx])) b hb]

theorem optTraverse_eq_map {α β : Type} (f : α → Option β) (g : α → β) :
    ∀ l : List α, (∀ a ∈ l, f a = some (g a)) → optTraverse f l = some (l.map g)
  | [], _ => rfl
  | a :: l, h => by
    simp [optTraverse, h a (by simp),
      optTraverse_eq_map f g l (fun x hx => h x (by simp [hx]))]

theorem optTraverse_eq_none {α β : Type} (f : α → Option β) {a : α} :
    ∀ l : List α, a ∈ l → f a = none → optTraverse f l = none
  | b :: l, hmem, ha => by
    rcases List.mem_cons.mp hmem with rfl | h
    · simp [optTraverse, ha]
    · cases hb : f b with
      | none => simp [optTraverse, hb]
      | some v => simp [optTraverse, hb, optTraverse_eq_none f l h ha]

theorem mem_of_optTraverse {α β : Type} (f : α → Option β) :
    ∀ (l : List α) (bs : List β), optTraverse f l = some bs →
    ∀ b ∈ bs, ∃ a ∈ l, f a = some b
  | [], bs, h, b, hb => by
    simp only [optTraverse, Option.some.injEq] at h
    subst h
    cases hb
  | a :: l, bs, h, b, hb => by
    cases ha : f a with
    | none => rw [optTraverse, ha] at h; cases h
    | some v =>
      cases hl : optTraverse f l with
      | none => rw [optTraverse, ha, hl] at h; cases h
      | some bs' =>
        rw [optTraverse, ha, hl] at h
        cases h
        rcases List.mem_cons.mp hb with rfl | hmem
        · exact ⟨a, by simp, ha⟩
        · obtain ⟨x, hx, hfx⟩ := mem_of_optTraverse f l bs' hl b hmem
          exact ⟨x, by simp [hx], hfx⟩

theorem enumFrom_ready_map {K : Type} :
    ∀ (l : List (K × Descriptor)) (n : Nat),
    ((enumFrom n l).filter (fun e => e.2.2.revents != 0)).map
        (fun e => (e.2.1, mkEvent e.2.2)) =
      (l.filter (fun kd => kd.2.revents != 0)).map (fun kd => (kd.1, mkEvent kd.2))
  | [], _ => rfl
  | kd :: l, n => by
    by_cases h : kd.2.revents = 0 <;>
      simp [enumFrom, List.filter_cons, h, enumFrom_ready_map l (n + 1)]

theorem processEntry_some {K : Type} (wakers : List (Nat × Nat))
    (drain : Nat → Except Nat Nat) (e : Nat × K × Descriptor)
    (b : K × EventView) (h : processEntry wakers drain e = some b) :
    b = (e.2.1, mkEvent e.2.2) := by
  cases hw : hmLookup wakers e.1 with
  | none =>
    simp only [processEntry, hw] at h
    exact (Option.some.inj h).symm
  | some r =>
    simp only [processEntry, hw] at h
    by_cases hc : e.2.2.revents &&& events.READ ≠ 0 ∧ e.2.2.revents &&& events.POLLOUT = 0
    · rw [if_pos hc] at h
      cases hs : snooze (drain r) with
      | none => rw [hs] at h; cases h
      | some u => rw [hs] at h; exact (Option.some.inj h).symm
    · rw [if_neg hc] at h; cases h

theorem snooze_ne_one (o : Except Nat Nat) (h : o ≠ .ok 1) : snooze o = none := by
  unfold snooze
  cases o with
  | error e => rfl
  | ok n =>
    cases n with
    | zero => rfl
    | succ m =>
      cases m with
      | zero => exact absurd rfl h
      | succ m2 => rfl

/-! Claim theorems. -/

/-- C10: register appends a record whose result mask is zero (Descriptor::new),
leaving the existing entries and the waker table untouched, so a freshly
registered descriptor can never appear ready from a stale result mask. -/
theorem register_appends_zero_revents {K : Type} (s : Descriptors K) (key : K)
    (fd : Int) (m : Nat) :
    (s.register key fd m).index = s.index ++ [key] ∧
    (s.register key fd m).list = s.list ++ [{ fd := fd, events := m, revents := 0 }] ∧
    (s.register key fd m).wakers = s.wakers ∧
    ((s.register key fd m).list.getLast?).map Descriptor.revents = some 0 := by
  refine ⟨rfl, rfl, rfl, ?_⟩
  show ((s.list ++ [Descriptor.new fd m]).getLast?).map Descriptor.revents = some 0
  rw [List.getLast?_concat]
  rfl

/-- C9: whenever any of Waker::new's three fallible steps fails, the error is
surfaced and the registry is left completely unmodified. -/
theorem waker_new_error_leaves_registry {K : Type} (s : Descriptors K) (key : K)
    (pairRes : Except Nat (Nat × Nat)) (readerNB writerNB : Except Nat Unit)
    (e : Nat) (h : (wakerNew s key pairRes readerNB writerNB).2 = .error e) :
    (wakerNew s key pairRes readerNB writerNB).1 = s := by
  cases pairRes with
  | error e' => rfl
  | ok p =>
    cases p with
    | mk w r =>
      cases readerNB with
      | error e' => rfl
      | ok u =>
        cases writerNB with
        | error e' => rfl
        | ok u' => simp [wakerNew] at h

theorem waker_new_error_leaves_registry_witness :
    (wakerNew ({ wakers := [], index := [0], list := [Descriptor.new 3 1] } :
        Descriptors Nat) 1 (.error 13) (.ok ()) (.ok ())).1
      = { wakers := [], index := [0], list := [Descriptor.new 3 1] } :=
  waker_new_error_leaves_registry _ 1 (.error 13) (.ok ()) (.ok ()) 13 rfl

/-- C7: set on an absent key returns false and changes nothing; set on a
present key returns true, replaces the interest mask of the first matching
entry in place, and leaves the key sequence, the waker table, every other
entry, and every result mask and raw fd unchanged. -/
theorem set_found_and_frame {K : Type} [DecidableEq K] (s : Descriptors K)
    (key : K) (m : Nat) :
    (firstIdx (fun k => decide (k = key)) s.index = none →
      s.set key m = (false, s)) ∧
    (∀ ix, firstIdx (fun k => decide (k = key)) s.index = some ix →
      (s.set key m).1 = true ∧
      (s.set key m).2.index = s.index ∧
      (s.set key m).2.wakers = s.wakers ∧
      (s.set key m).2.list.map Descriptor.revents = s.list.map Descriptor.revents ∧
      (s.set key m).2.list.map Descriptor.fd = s.list.map Descriptor.fd ∧
      (∀ j, j ≠ ix → (s.set key m).2.list[j]? = s.list[j]?) ∧
      (s.set key m).2.list[ix]? = (s.list[ix]?).map (fun d => { d with events := m })) := by
  constructor
  · intro h
    simp [Descriptors.set, h]
  · intro ix h
    have hset : s.set key m
        = (true, Descriptors.mk s.wakers s.index
            (modifyAt (fun d => { d with events := m }) ix s.list)) := by
      simp only [Descriptors.set, h]
    rw [hset]
    refine ⟨rfl, rfl, rfl, ?_, ?_, ?_, ?_⟩
    · exact map_modifyAt_eq Descriptor.revents (fun d => { d with events := m })
        (fun d => rfl) ix s.list
    · exact map_modifyAt_eq Descriptor.fd (fun d => { d with events := m })
        (fun d => rfl) ix s.list
    · intro j hj
      rw [modifyAt_getElem?, if_neg hj]
    · rw [modifyAt_getElem?, if_pos rfl]

def frameSt : Descriptors Nat :=
  { wakers := [], index := [1, 2],
    list := [{ fd := 3, events := 1, revents := 0 }, { fd := 4, events := 2, revents := 5 }] }

theorem set_found_and_frame_witness :
    Descriptors.set frameSt 9 6 = (false, frameSt) ∧
    (Descriptors.set frameSt 2 6).1 = true ∧
    (Descriptors.set frameSt 2 6).2.list[0]? = frameSt.list[0]? ∧
    (Descriptors.set frameSt 2 6).2.list[1]? = some { fd := 4, events := 6, revents := 5 } := by
  refine ⟨(set_found_and_frame frameSt 9 6).1 (by decide),
    ((set_found_and_frame frameSt 2 6).2 1 (by decide)).1,
    ((set_found_and_frame frameSt 2 6).2 1 (by decide)).2.2.2.2.2.1 0 (by decide),
    ?_⟩
  have h := ((set_found_and_frame frameSt 2 6).2 1 (by decide)).2.2.2.2.2.2
  rw [h]
  rfl

/-- C8 counterexample: with a duplicate key already present under a different
interest mask, register-then-set reports true but mutates the earlier entry,
so the registry does not equal the state after the register alone. -/
theorem register_set_duplicate_counterexample :
    Descriptors.set
        (Descriptors.register (Descriptors.register (Descriptors.new Nat) 0 3 1) 0 4 2) 0 2
      ≠ (true, Descriptors.register (Descriptors.register (Descriptors.new Nat) 0 3 1) 0 4 2) := by
  decide

/-- C8 (amended): on an aligned registry that does not already contain the key,
register(key, fd, M) followed by set(key, M) returns true and leaves the
registry exactly as after the register alone. -/
theorem register_then_set_idempotent {K : Type} [DecidableEq K] (s : Descriptors K)
    (key : K) (fd : Int) (m : Nat) (hlen : s.index.length = s.list.length)
    (habs : ∀ k ∈ s.index, k ≠ key) :
    Descriptors.set (s.register key fd m) key m = (true, s.register key fd m) := by
  have hidx : firstIdx (fun k => decide (k = key)) (s.register key fd m).index
      = some s.list.length := by
    show firstIdx (fun k => decide (k = key)) (s.index ++ [key]) = some s.list.length
    rw [← hlen]
    exact firstIdx_append_absent _ s.index (fun a ha => by simp [habs a ha]) key (by simp)
  simp only [Descriptors.set, hidx]
  show (true, Descriptors.mk s.wakers (s.index ++ [key])
      (modifyAt (fun d => { d with events := m }) s.list.length
        (s.list ++ [Descriptor.new fd m])))
    = (true, s.register key fd m)
  rw [modifyAt_append_len]
  rfl

def roundTripSt : Descriptors Nat :=
  { wakers := [], index := [0], list := [{ fd := 3, events := 1, revents := 0 }] }

theorem register_then_set_idempotent_witness :
    Descriptors.set (Descriptors.register roundTripSt 1 4 2) 1 2
      = (true, Descriptors.register roundTripSt 1 4 2) :=
  register_then_set_idempotent _ 1 4 2 (by decide) (by decide)

/-- C6 counterexample: a duration of 2^32 milliseconds has whole-millisecond
count 2^32, but the cast to the syscall's int argument wraps it to 0, so the
value passed is not the truncated millisecond count. -/
theorem timeout_cast_wraps :
    asMillis 4294967296000000 = 4294967296 ∧
    waitTimeoutArg 4294967296000000 = 0 ∧
    waitTimeoutArg 4294967296000000 ≠ (4294967296 : Int) := by
  refine ⟨by decide, by decide, by decide⟩

/-- C6 (amended): for every duration whose whole-millisecond count is below
2^31, wait hands poll(2) exactly the duration truncated to whole milliseconds,
and a zero duration is passed as 0 (a single non-blocking poll). -/
theorem timeout_millis_passed {K : Type} (fds : Descriptors K) (ns : Nat)
    (poll : Int → SysOutcome) (drain : Nat → Except Nat Nat)
    (h : ns / 1000000 < 2147483648) :
    wait fds ns poll drain
      = waitWith fds (poll ((ns / 1000000 : Nat) : Int)) drain ∧
    waitTimeoutArg ns = ((ns / 1000000 : Nat) : Int) ∧
    waitTimeoutArg 0 = 0 := by
  have harg : waitTimeoutArg ns = ((ns / 1000000 : Nat) : Int) := by
    unfold waitTimeoutArg castToCInt asMillis
    rw [Nat.mod_eq_of_lt (lt_trans h (by norm_num))]
    rw [if_pos h]
  refine ⟨?_, harg, rfl⟩
  unfold wait
  rw [harg]

theorem timeout_millis_passed_witness :
    waitTimeoutArg 1500000 = (1 : Int) ∧ waitTimeoutArg 0 = 0 := by
  have h := timeout_millis_passed ({ wakers := [], index := [], list := [] } :
    Descriptors Nat) 1500000 (fun _ => ⟨0, [], 0⟩) (fun _ => .ok 1) (by decide)
  exact ⟨h.2.1.trans (by decide), h.2.2⟩

/-- Registry after register(0, fd 5), then Waker::new under key 1 (reader fd
7, at position 1), then unregister(0). -/
def staleRegistry : Descriptors Nat :=
  Descriptors.unregister
    ((wakerNew (Descriptors.register (Descriptors.new Nat) 0 5 1) 1
      (.ok (8, 7)) (.ok ()) (.ok ())).1) 0

/-- C3: evaluation at a failing operation sequence.  After register(0), a
Waker::new under key 1 (reader fd 7) and unregister(0), the waker table still
records position 1 (which no longer exists) while the waker's reader actually
sits at position 0, unrecorded — the positions in the waker side-table are not
the positions of the waker-created registrations, because unregister
swap-removes from index and list but never updates the side-table.  The
auto-drain in wait would therefore miss the waker slot. -/
theorem wakers_table_stale_after_unregister :
    hmLookup staleRegistry.wakers 1 = some 7 ∧
    staleRegistry.list[1]? = none ∧
    (staleRegistry.list[0]?).map Descriptor.fd = some 7 ∧
    hmLookup staleRegistry.wakers 0 = none := by
  decide

theorem alignedStep {K : Type} [DecidableEq K] (s : Descriptors K)
    (ps : List (K × Descriptor)) (h1 : s.index = ps.map Prod.fst)
    (h2 : s.list = ps.map Prod.snd) (op : Op K) :
    (applyOp s op).index = (pApplyOp ps op).map Prod.fst ∧
    (applyOp s op).list = (pApplyOp ps op).map Prod.snd := by
  cases op with
  | reg key fd ev =>
    simp [applyOp, pApplyOp, Descriptors.register, Descriptors.insert, h1, h2]
  | unreg key =>
    have hf : firstIdx (fun k => decide (k = key)) s.index
        = firstIdx (fun p => decide (p.1 = key)) ps := by
      rw [h1, firstIdx_map]
    simp only [applyOp, pApplyOp, Descriptors.unregister, hf]
    cases hix : firstIdx (fun p => decide (p.1 = key)) ps with
    | none => exact ⟨h1, h2⟩
    | some ix =>
      constructor
      · show swapRemove s.index ix = (swapRemove ps ix).map Prod.fst
        rw [h1, swapRemove_map]
      · show swapRemove s.list ix = (swapRemove ps ix).map Prod.snd
        rw [h2, swapRemove_map]
  | seti key ev =>
    have hf : firstIdx (fun k => decide (k = key)) s.index
        = firstIdx (fun p => decide (p.1 = key)) ps := by
      rw [h1, firstIdx_map]
    simp only [applyOp, pApplyOp, Descriptors.set, hf]
    cases hix : firstIdx (fun p => decide (p.1 = key)) ps with
    | none => exact ⟨h1, h2⟩
    | some ix =>
      constructor
      · show s.index = (modifyAt (fun p => (p.1, { p.2 with events := ev })) ix ps).map Prod.fst
        rw [h1]
        exact (map_modifyAt_eq Prod.fst (fun p => (p.1, { p.2 with events := ev }))
          (fun a => rfl) ix ps).symm
      · show modifyAt (fun d => { d with events := ev }) ix s.list
          = (modifyAt (fun p => (p.1, { p.2 with events := ev })) ix ps).map Prod.snd
        rw [h2]
        exact (map_modifyAt_comm Prod.snd (fun p => (p.1, { p.2 with events := ev }))
          (fun d => { d with events := ev }) (fun a => rfl) ix ps).symm

theorem alignedOps {K : Type} [DecidableEq K] :
    ∀ (ops : List (Op K)) (s : Descriptors K) (ps : List (K × Descriptor)),
    s.index = ps.map Prod.fst → s.list = ps.map Prod.snd →
    (applyOps s ops).index = (pApplyOps ps ops).map Prod.fst ∧
    (applyOps s ops).list = (pApplyOps ps ops).map Prod.snd
  | [], s, ps, h1, h2 => ⟨h1, h2⟩
  | op :: ops, s, ps, h1, h2 => by
    have hstep := alignedStep s ps h1 h2 op
    exact alignedOps ops (applyOp s op) (pApplyOp ps op) hstep.1 hstep.2

/-- C5: over any sequence of register, unregister and set operations from the
empty registry, the key sequence and the record sequence evolve as the two
projections of a single paired sequence — the key at position i always belongs
to the record at position i — and in particular have equal length. -/
theorem registry_alignment {K : Type} [DecidableEq K] (ops : List (Op K)) :
    (applyOps (Descriptors.new K) ops).index = (pApplyOps [] ops).map Prod.fst ∧
    (applyOps (Descriptors.new K) ops).list = (pApplyOps [] ops).map Prod.snd ∧
    (applyOps (Descriptors.new K) ops).index.length
      = (applyOps (Descriptors.new K) ops).list.length := by
  obtain ⟨h1, h2⟩ := alignedOps ops (Descriptors.new K) [] rfl rfl
  refine ⟨h1, h2, ?_⟩
  rw [h1, h2, List.length_map, List.length_map]

/-- C1: waitWith interprets the syscall return code as: 0 is Timeout; a
positive value is Ready over exactly the (key, event) pairs of records whose
result mask is non-zero, in registry positional order (provided the waker
drains succeed, so that no assert aborts the iteration); a negative value is
an error carrying the operating system's last error. -/
theorem wait_return_code_interpretation {K : Type} (fds : Descriptors K)
    (sys : SysOutcome) (drain : Nat → Except Nat Nat) :
    (sys.ret = 0 → waitWith fds sys drain = .timeout) ∧
    (sys.ret < 0 → waitWith fds sys drain = .fail sys.errno) ∧
    (0 < sys.ret →
      (∀ e ∈ readyEntries fds.index (writeRevents fds.list sys.revs),
        ∀ r, hmLookup fds.wakers e.1 = some r →
          e.2.2.revents &&& events.READ ≠ 0 ∧ e.2.2.revents &&& events.POLLOUT = 0 ∧
            drain r = .ok 1) →
      waitWith fds sys drain
        = .ready (specReadyPairs fds.index (writeRevents fds.list sys.revs))) := by
  refine ⟨?_, ?_, ?_⟩
  · intro h
    simp [waitWith, h]
  · intro h
    have h0 : ¬ sys.ret = 0 := by omega
    have h1 : ¬ 0 < sys.ret := by omega
    simp [waitWith, h0, h1]
  · intro hpos hdrain
    have h0 : ¬ sys.ret = 0 := by omega
    have htrav : optTraverse (processEntry fds.wakers drain)
        (readyEntries fds.index (writeRevents fds.list sys.revs))
        = some ((readyEntries fds.index (writeRevents fds.list sys.revs)).map
            (fun e => (e.2.1, mkEvent e.2.2))) := by
      apply optTraverse_eq_map
      intro e he
      cases hw : hmLookup fds.wakers e.1 with
      | none => simp [processEntry, hw]
      | some r =>
        obtain ⟨ha, hb, hc⟩ := hdrain e he r hw
        simp [processEntry, hw, ha, hb, hc, snooze]
    simp only [waitWith, if_neg h0, if_pos hpos, htrav]
    show WaitOutcome.ready _ = WaitOutcome.ready _
    congr 1
    unfold readyEntries specReadyPairs
    exact enumFrom_ready_map _ 0

def waitSt : Descriptors Nat :=
  { wakers := [], index := [0], list := [{ fd := 3, events := 1, revents := 0 }] }

theorem wait_return_code_interpretation_witness :
    waitWith waitSt ⟨0, [0], 0⟩ (fun _ => .ok 1) = .timeout ∧
    waitWith waitSt ⟨-1, [0], 7⟩ (fun _ => .ok 1) = .fail 7 ∧
    waitWith waitSt ⟨1, [1], 0⟩ (fun _ => .ok 1)
      = .ready [(0, mkEvent { fd := 3, events := 1, revents := 1 })] := by
  refine ⟨(wait_return_code_interpretation waitSt ⟨0, [0], 0⟩ (fun _ => .ok 1)).1 rfl,
    (wait_return_code_interpretation waitSt ⟨-1, [0], 7⟩ (fun _ => .ok 1)).2.1 (by decide),
    ?_⟩
  have h := (wait_return_code_interpretation waitSt ⟨1, [1], 0⟩ (fun _ => .ok 1)).2.2
    (by decide) (by intro e he r hr; simp [waitSt, hmLookup] at hr)
  rw [h]
  decide

/-- C2: every event yielded by waitWith has readable, writable and errored
derived from the record's result mask by the composite masks
READ = POLLIN|POLLHUP|POLLERR|POLLPRI and WRITE = POLLOUT|POLLERR, with
errored testing POLLERR|POLLNVAL. -/
theorem event_bit_interpretation {K : Type} (fds : Descriptors K)
    (sys : SysOutcome) (drain : Nat → Except Nat Nat)
    (evs : List (K × EventView)) (h : waitWith fds sys drain = .ready evs) :
    (∀ kv ∈ evs,
      kv.2.readable = ((kv.2.descriptor.revents &&&
        (events.POLLIN ||| events.POLLHUP ||| events.POLLERR ||| events.POLLPRI)) != 0) ∧
      kv.2.writable
        = ((kv.2.descriptor.revents &&& (events.POLLOUT ||| events.POLLERR)) != 0) ∧
      kv.2.errored
        = ((kv.2.descriptor.revents &&& (events.POLLERR ||| events.POLLNVAL)) != 0)) ∧
    events.READ = (events.POLLIN ||| events.POLLHUP ||| events.POLLERR ||| events.POLLPRI) ∧
    events.WRITE = (events.POLLOUT ||| events.POLLERR) := by
  refine ⟨?_, rfl, rfl⟩
  intro kv hkv
  unfold waitWith at h
  by_cases h0 : sys.ret = 0
  · rw [if_pos h0] at h
    cases h
  · rw [if_neg h0] at h
    by_cases h1 : 0 < sys.ret
    · rw [if_pos h1] at h
      cases ht : optTraverse (processEntry fds.wakers drain)
          (readyEntries fds.index (writeRevents fds.list sys.revs)) with
      | none => rw [ht] at h; cases h
      | some l =>
        rw [ht] at h
        cases h
        obtain ⟨e, he, hfe⟩ := mem_of_optTraverse _ _ _ ht kv hkv
        have hkv2 := processEntry_some _ _ _ _ hfe
        subst hkv2
        exact ⟨rfl, rfl, rfl⟩
    · rw [if_neg h1] at h
      cases h

theorem event_bit_interpretation_witness :
    (mkEvent { fd := 3, events := 1, revents := 1 }).readable = true ∧
    events.READ = 27 ∧ events.WRITE = 12 := by
  have h := event_bit_interpretation waitSt ⟨1, [1], 0⟩ (fun _ => .ok 1)
    [(0, mkEvent { fd := 3, events := 1, revents := 1 })] (by decide)
  refine ⟨?_, ?_, ?_⟩
  · have h2 := (h.1 (0, mkEvent { fd := 3, events := 1, revents := 1 }) (by decide)).1
    rw [h2]
    decide
  · rw [h.2.1]
    decide
  · rw [h.2.2]
    decide

/-- C4: for a ready record at a position the waker table marks as a waker
slot, the event is yielded exactly when the result mask passes the two asserts
(a READ-class bit set, the POLLOUT bit clear) and the drain read on that
slot's internal reader returns exactly one byte; if the drain read fails or
returns any other byte count — or an assert fails — the iteration aborts, and
the whole wait aborts with it. -/
theorem waker_slot_drain_and_abort {K : Type} (fds : Descriptors K)
    (sys : SysOutcome) (drain : Nat → Except Nat Nat) (i : Nat) (k : K)
    (d : Descriptor) (r : Nat) (hret : 0 < sys.ret)
    (hmem : (i, k, d) ∈ readyEntries fds.index (writeRevents fds.list sys.revs))
    (hw : hmLookup fds.wakers i = some r) :
    (processEntry fds.wakers drain (i, k, d) = some (k, mkEvent d) ↔
      d.revents &&& events.READ ≠ 0 ∧ d.revents &&& events.POLLOUT = 0 ∧
        drain r = .ok 1) ∧
    (processEntry fds.wakers drain (i, k, d) = none →
      waitWith fds sys drain = .aborted) ∧
    (¬ (d.revents &&& events.READ ≠ 0 ∧ d.revents &&& events.POLLOUT = 0 ∧
        drain r = .ok 1) →
      waitWith fds sys drain = .aborted) := by
  have habort : processEntry fds.wakers drain (i, k, d) = none →
      waitWith fds sys drain = .aborted := by
    intro hnone
    have htr := optTraverse_eq_none (processEntry fds.wakers drain) _ hmem hnone
    have h0 : ¬ sys.ret = 0 := by omega
    simp [waitWith, h0, hret, htr]
  have hiff : processEntry fds.wakers drain (i, k, d) = some (k, mkEvent d) ↔
      d.revents &&& events.READ ≠ 0 ∧ d.revents &&& events.POLLOUT = 0 ∧
        drain r = .ok 1 := by
    by_cases hc : d.revents &&& events.READ ≠ 0 ∧ d.revents &&& events.POLLOUT = 0
    · by_cases hd : drain r = .ok 1
      · simp [processEntry, hw, hc, hd, snooze, hc.1, hc.2]
      · have hsn := snooze_ne_one _ hd
        simp [processEntry, hw, hc, hsn, hd]
    · constructor
      · intro hsome
        exfalso
        simp [processEntry, hw, hc] at hsome
      · intro hall
        exact absurd ⟨hall.1, hall.2.1⟩ hc
  refine ⟨hiff, habort, fun hc => habort ?_⟩
  cases hres : processEntry fds.wakers drain (i, k, d) with
  | none => rfl
  | some b =>
    have hb := processEntry_some _ _ _ _ hres
    rw [hb] at hres
    exact absurd (hiff.mp hres) hc

def wakerSt : Descriptors Nat :=
  { wakers := [(0, 7)], index := [5], list := [{ fd := 7, events := 27, revents := 0 }] }

theorem waker_slot_drain_and_abort_witness :
    processEntry wakerSt.wakers (fun _ => .ok 1) (0, 5, { fd := 7, events := 27, revents := 1 })
      = some (5, mkEvent { fd := 7, events := 27, revents := 1 }) ∧
    waitWith wakerSt ⟨1, [1], 0⟩ (fun _ => .error 4) = .aborted := by
  constructor
  · exact (waker_slot_drain_and_abort wakerSt ⟨1, [1], 0⟩ (fun _ => .ok 1) 0 5
      { fd := 7, events := 27, revents := 1 } 7 (by decide) (by decide) (by decide)).1.mpr
      ⟨by decide, by decide, rfl⟩
  · refine (waker_slot_drain_and_abort wakerSt ⟨1, [1], 0⟩ (fun _ => .error 4) 0 5
      { fd := 7, events := 27, revents := 1 } 7 (by decide) (by decide) (by decide)).2.2 ?_
    rintro ⟨h1, h2, h3⟩
    cases h3

end Popol
